import Mathlib

/-
Verification of the schema-driven document-processing pipeline of the
Mongo-ORM repository (src/Model.ts, src/QueryBuilder.ts, src/FieldTypes.ts).

JavaScript runtime values are embedded as the inductive type `Value`;
documents are association lists in insertion order; the clock and the
database driver are explicit parameters.  Every definition is translated
from the TypeScript source; definitions that formalise the specification's
own wording (for refinement comparison) are marked as such.
-/

namespace MongoOrm

/-- A JavaScript runtime value as used by the ORM: primitives, dates
(epoch milliseconds), arrays and plain objects.  JS `undefined` is a
distinct value.  Numbers are modelled as integers (no claim depends on
fractional or NaN behaviour). -/
inductive Value where
  | vNull : Value
  | vUndefined : Value
  | vBool (b : Bool) : Value
  | vNum (n : Int) : Value
  | vStr (s : String) : Value
  | vDate (t : Int) : Value
  | vArr (xs : List Value) : Value
  | vObj (fields : List (String × Value)) : Value

/-- A document: an ordered list of key/value pairs, first occurrence of a
key is the binding (mirrors JS object property lookup). -/
abbrev Doc : Type := List (String × Value)

/-- Property lookup `d[k]`; a missing key reads as JS `undefined`. -/
def getD : Doc → String → Value
  | [], _ => Value.vUndefined
  | (k', v') :: rest, k => if k' == k then v' else getD rest k

/-- Property assignment `d[k] = v`: replaces the binding in place when the
key exists, otherwise appends it (JS object insertion order). -/
def setKey : Doc → String → Value → Doc
  | [], k, v => [(k, v)]
  | (k', v') :: rest, k, v => if k' == k then (k, v) :: rest else (k', v') :: setKey rest k v

/-- The keys of a document, in order. -/
def keys (d : Doc) : List String := d.map Prod.fst

/-- Object spread `\x7b ...base, ...d \x7d`: copy the entries of `d` onto
`base`, later entries overriding earlier ones. -/
def spreadInto (base : Doc) (d : Doc) : Doc :=
  d.foldl (fun acc kv => setKey acc kv.1 kv.2) base

/-- JS truthiness: `false`, `0`, the empty string, `null` and `undefined`
are falsy; every other value (including empty arrays and objects) is
truthy. -/
def truthy : Value → Bool
  | Value.vNull => false
  | Value.vUndefined => false
  | Value.vBool b => b
  | Value.vNum n => n != 0
  | Value.vStr s => s != ""
  | Value.vDate _ => true
  | Value.vArr _ => true
  | Value.vObj _ => true

/-- `typeof v === 'string'`. -/
def isStr : Value → Bool
  | Value.vStr _ => true
  | _ => false

/-- `typeof v === 'number'`. -/
def isNum : Value → Bool
  | Value.vNum _ => true
  | _ => false

/-- `typeof v === 'boolean'`. -/
def isBool : Value → Bool
  | Value.vBool _ => true
  | _ => false

/-- `v instanceof Date`. -/
def isDate : Value → Bool
  | Value.vDate _ => true
  | _ => false

/-- `Array.isArray(v)`. -/
def isArr : Value → Bool
  | Value.vArr _ => true
  | _ => false

/-- `v === null`. -/
def isNullV : Value → Bool
  | Value.vNull => true
  | _ => false

/-- `typeof v === 'object'`: true for plain objects, arrays, dates and
`null` (JS quirk). -/
def typeofObject : Value → Bool
  | Value.vNull => true
  | Value.vDate _ => true
  | Value.vArr _ => true
  | Value.vObj _ => true
  | _ => false

/-- `Number(v)`: exact on numbers, booleans, `null` and dates; string
parsing and NaN are outside the model (no claim depends on them). -/
def jsNumber : Value → Int
  | Value.vNum n => n
  | Value.vBool b => if b then 1 else 0
  | Value.vNull => 0
  | Value.vDate t => t
  | _ => 0

/-- `String(v)`: exact on strings, numbers, booleans, `null` and
`undefined`; date/array/object rendering is abbreviated (no claim depends
on it). -/
def jsString : Value → String
  | Value.vStr s => s
  | Value.vNum n => toString n
  | Value.vBool b => if b then "true" else "false"
  | Value.vNull => "null"
  | Value.vUndefined => "undefined"
  | Value.vDate _ => "date"
  | Value.vArr _ => "array"
  | Value.vObj _ => "object"

/-- `new Date(v)`: a number is taken as epoch milliseconds, a date is
copied, a boolean coerces to 0/1; string parsing is outside the model. -/
def jsNewDate : Value → Value
  | Value.vNum n => Value.vDate n
  | Value.vDate t => Value.vDate t
  | Value.vBool b => Value.vDate (if b then 1 else 0)
  | _ => Value.vDate 0

/-- `Array(v)`: with a numeric argument `n` this is the array constructor
arity-one form, producing an array of `n` empty slots (read back as
`undefined`) and throwing `RangeError: Invalid array length` for an
invalid (negative) length; any non-number argument yields the
single-element array `[v]`. -/
def jsArrayCtor : Value → Except String Value
  | Value.vNum n =>
      if n < 0 then Except.error "Invalid array length"
      else Except.ok (Value.vArr (List.replicate n.toNat Value.vUndefined))
  | v => Except.ok (Value.vArr [v])

/-- `Object(v)`: objects, arrays and dates are returned unchanged;
primitive boxing is not distinguished in this model. -/
def jsObject (v : Value) : Value := v

/-- FieldTypes.String. -/
def fieldTypeString : String := "string"

/-- FieldTypes.Number. -/
def fieldTypeNumber : String := "number"

/-- FieldTypes.Boolean. -/
def fieldTypeBoolean : String := "boolean"

/-- FieldTypes.Date. -/
def fieldTypeDate : String := "date"

/-- FieldTypes.Array. -/
def fieldTypeArray : String := "array"

/-- FieldTypes.Object. -/
def fieldTypeObject : String := "object"

/-- FieldTypes.ObjectId. -/
def fieldTypeObjectId : String := "objectId"

/-- The exported FieldTypes registry object of src/FieldTypes.ts, as the
ordered list of its (tag, value) members. -/
def FieldTypes : List (String × String) :=
  [("String", fieldTypeString),
   ("Number", fieldTypeNumber),
   ("Boolean", fieldTypeBoolean),
   ("Date", fieldTypeDate),
   ("Array", fieldTypeArray),
   ("Object", fieldTypeObject),
   ("ObjectId", fieldTypeObjectId)]

/-- A schema field declaration (`FieldOptions` of src/types.ts):
`\x7b name, type, default?, required? \x7d`. -/
structure FieldOptions where
  name : String
  type : String
  default : Option Value
  required : Bool

/-- `typeof field.default !== 'undefined'`: the field has a usable
default (an absent or explicitly `undefined` default counts as none). -/
def hasDefault (f : FieldOptions) : Bool :=
  match f.default with
  | none => false
  | some Value.vUndefined => false
  | some _ => true

/-- The default value of a field (meaningful when `hasDefault`). -/
def getDefault (f : FieldOptions) : Value := f.default.getD Value.vUndefined

/-- The error thrown by processDocument for a required field with neither
a provided value nor a default (src/Model.ts line 207). -/
def requiredMsg (name : String) : String :=
  "Field " ++ name ++ " is required but was not provided a value and does not have a default value to back up off."

/-- The type-directed coercion chain applied by processDocument to a
provided (or default) value, in the source's branch order: Date, Number,
Boolean, ObjectId, Array (only when not already an array; the `Array(v)`
constructor may throw), Object, else pass through unchanged
(src/Model.ts lines 191-197 and 199-205; the two chains are the same
function applied to the input value and to the default value). -/
def coerceVal (ty : String) (v : Value) : Except String Value :=
  if ty == fieldTypeDate then Except.ok (jsNewDate v)
  else if ty == fieldTypeNumber then Except.ok (Value.vNum (jsNumber v))
  else if ty == fieldTypeBoolean then Except.ok (Value.vBool (truthy v))
  else if ty == fieldTypeObjectId then Except.ok (Value.vStr (jsString v))
  else if ty == fieldTypeArray && !(isArr v) then jsArrayCtor v
  else if ty == fieldTypeObject then Except.ok (jsObject v)
  else Except.ok v

/-- One iteration of the processDocument field loop (src/Model.ts lines
188-208): a truthy provided value is coerced; otherwise a defined default
is coerced; otherwise a required field on the insert path throws; else
the field is omitted (`none`). -/
def processFieldStep (document : Doc) (isUpdate : Bool) (f : FieldOptions) :
    Except String (Option Value) :=
  if truthy (getD document f.name) then
    (coerceVal f.type (getD document f.name)).map some
  else if hasDefault f then
    (coerceVal f.type (getDefault f)).map some
  else if !isUpdate && f.required then
    Except.error (requiredMsg f.name)
  else
    Except.ok none

/-- The processDocument field loop, accumulating assignments into the
processed document in schema order. -/
def processFields (document : Doc) (isUpdate : Bool) :
    List FieldOptions → Doc → Except String Doc
  | [], acc => Except.ok acc
  | f :: rest, acc =>
    match processFieldStep document isUpdate f with
    | Except.error e => Except.error e
    | Except.ok none => processFields document isUpdate rest acc
    | Except.ok (some v) => processFields document isUpdate rest (setKey acc f.name v)

/-- The reserved lifecycle timestamp key stamped by processDocument:
`updatedAt` on the update path, `createdAt` on the insert path. -/
def stampKey (isUpdate : Bool) : String := if isUpdate then "updatedAt" else "createdAt"

/-- `Math.ceil(nowMs / 1000)`: the epoch-second timestamp stored in the
lifecycle field. -/
def stampOf (nowMs : Int) : Int := -((-nowMs).ediv 1000)

/-- processDocument (src/Model.ts lines 184-212): run the field loop over
the declared schema starting from an empty document, then stamp exactly
one lifecycle key with the current epoch-second time. -/
def processDocument (fields : List FieldOptions) (document : Doc) (isUpdate : Bool)
    (nowMs : Int) : Except String Doc :=
  match processFields document isUpdate fields [] with
  | Except.error e => Except.error e
  | Except.ok acc => Except.ok (setKey acc (stampKey isUpdate) (Value.vNum (stampOf nowMs)))

/-- processDefault (src/Model.ts lines 158-173): construction-time check
that a defined default's runtime type is compatible with the declared
field type; an absent or `undefined` default is not checked. -/
def processDefault (field : FieldOptions) : Except String Unit :=
  match field.default with
  | none => Except.ok ()
  | some Value.vUndefined => Except.ok ()
  | some d =>
    if field.type == fieldTypeString && !(isStr d) && !(isNullV d) then
      Except.error "Field is of type string but the default value is not a string or null."
    else if field.type == fieldTypeNumber && !(isNum d) && !(isNullV d) then
      Except.error "Field is of type number but the default value is not a number or null."
    else if field.type == fieldTypeBoolean && !(isBool d) then
      Except.error "Field is of type boolean but the default value is not a boolean."
    else if field.type == fieldTypeDate && !(isDate d) then
      Except.error "Field is of type date but the default value is not a date."
    else if field.type == fieldTypeArray && !(isArr d) then
      Except.error "Field is of type array but the default value is not an array."
    else if field.type == fieldTypeObject && !(typeofObject d) && !(isNullV d) then
      Except.error "Field is of type object but the default value is not an object or null."
    else if field.type == fieldTypeObjectId && !(isStr d) && !(isNullV d) then
      Except.error "Field is of type objectId but the default value is not a string or null."
    else Except.ok ()

/-- `this.$fieldOptions.forEach((field) => this.processDefault(field))`:
the first incompatible default aborts construction. -/
def checkDefaults : List FieldOptions → Except String Unit
  | [] => Except.ok ()
  | f :: rest =>
    match processDefault f with
    | Except.error e => Except.error e
    | Except.ok _ => checkDefaults rest

/-- The operational options as supplied to the constructor
(`OtherOptions` of src/types.ts: `debug?: boolean; log: number`). -/
structure OtherOptionsIn where
  debug : Option Bool
  log : Int

/-- The operational options held by a constructed model. -/
structure OtherOptionsEff where
  debug : Bool
  log : Int

/-- The constructor's option normalization (src/Model.ts lines 80-83):
`debug: otherOptions?.debug || false` and `log: otherOptions?.log || -1`;
a falsy supplied log (that is, 0) becomes -1. -/
def normalizeOptions : Option OtherOptionsIn → OtherOptionsEff
  | none => { debug := false, log := -1 }
  | some o => { debug := o.debug.getD false, log := if o.log == 0 then -1 else o.log }

/-- A constructed Collection Façade: collection name, schema and
normalized operational options (index options play no role in any claim
and generateIndexes is a driver passthrough, so they are not modelled). -/
structure Model where
  name : String
  fieldOptions : List FieldOptions
  otherOptions : OtherOptionsEff

/-- The Model constructor (src/Model.ts lines 75-89): normalize the
options, run processDefault over every field (first failure throws), then
reject any field named createdAt or updatedAt.  No duplicate-name check
exists in the source. -/
def constructModel (collectionName : String) (fieldOptions : List FieldOptions)
    (otherOptions : Option OtherOptionsIn) : Except String Model :=
  match checkDefaults fieldOptions with
  | Except.error e => Except.error e
  | Except.ok _ =>
    if (fieldOptions.filter (fun f => f.name == "createdAt" || f.name == "updatedAt")).length != 0 then
      Except.error "You cannot use the field names createdAt or updatedAt as they are reserved for the ORM."
    else
      Except.ok { name := collectionName, fieldOptions := fieldOptions,
                  otherOptions := normalizeOptions otherOptions }

/-- A slow-query telemetry record written to the `_mongoOrmDebug` side
collection (src/Model.ts lines 137-142); the query is kept structured
here, the source serializes it with JSON.stringify. -/
structure TelemetryRecord where
  model : String
  query : Doc
  time : Int
  date : Int

/-- dispatchAction (src/Model.ts lines 129-148).  The wrapped operation
is an explicit outcome `op` together with its measured elapsed time; the
telemetry insert is fire-and-forget, so its own success
(`telemetryWriteFails`) only determines whether a record lands in the
side collection, never the returned result.  With debug off the
operation result is returned untouched; with debug on, a record is
written when `log !== -1` and the elapsed time exceeds `log`. -/
def dispatchAction {α : Type} (opts : OtherOptionsEff) (modelName : String) (query : Doc)
    (elapsed dateNow : Int) (telemetryWriteFails : Bool) (op : Except String α) :
    Except String α × List TelemetryRecord :=
  if opts.debug then
    match op with
    | Except.error e => (Except.error e, [])
    | Except.ok v =>
      if opts.log ≠ -1 ∧ opts.log < elapsed then
        (Except.ok v,
         if telemetryWriteFails then []
         else [{ model := modelName, query := query, time := elapsed, date := dateNow }])
      else (Except.ok v, [])
  else (op, [])

/-- QueryBuilder.insertOne (src/QueryBuilder.ts lines 249-255): delegate
to the driver and return `\x7b _id: result?.insertedId, ...document \x7d`
— an object that has no `acknowledged` member unless the document itself
carries one. -/
def qbInsertOne (insertedId : Value) (document : Doc) : Doc :=
  spreadInto [("_id", insertedId)] document

/-- The observable outcome of a Model operation: its resolution or
rejection, the documents handed to the driver insert capability, and the
telemetry records written. -/
structure ModelOpOutcome where
  result : Except String Value
  driverInserts : List Doc
  telemetry : List TelemetryRecord

/-- Model.insertOne (src/Model.ts lines 420-423): process the document
(insert path), hand the processed document to QueryBuilder.insertOne
inside dispatchAction (a processing failure rejects before the driver is
reached), then resolve with `!!result?.acknowledged`. -/
def modelInsertOne (m : Model) (document : Doc) (nowMs elapsed dateNow : Int)
    (insertedId : Value) (telemetryWriteFails : Bool) : ModelOpOutcome :=
  let fnOutcome : Except String Doc × List Doc :=
    match processDocument m.fieldOptions document false nowMs with
    | Except.error e => (Except.error e, [])
    | Except.ok pd => (Except.ok (qbInsertOne insertedId pd), [pd])
  let dispatched :=
    dispatchAction m.otherOptions m.name [] elapsed dateNow telemetryWriteFails fnOutcome.1
  { result := dispatched.1.map (fun resDoc => Value.vBool (truthy (getD resDoc "acknowledged")))
    driverInserts := fnOutcome.2
    telemetry := dispatched.2 }

/-- Model.findOneOrCreate (src/Model.ts lines 468-472): dispatch a driver
findOne (`found` is the driver's answer, `null` when no match); a truthy
find result is returned unchanged; otherwise the raw document is
processed and passed to Model.insertOne — which processes it a second
time and resolves with `!!result?.acknowledged`. -/
def modelFindOneOrCreate (m : Model) (found : Option Doc) (query document : Doc)
    (now1 now2 elapsed1 elapsed2 dateNow : Int) (insertedId : Value)
    (telemetryWriteFails : Bool) : ModelOpOutcome :=
  let findVal : Value := match found with
    | some d => Value.vObj d
    | none => Value.vNull
  let d1 := dispatchAction m.otherOptions m.name query elapsed1 dateNow telemetryWriteFails
    (Except.ok findVal)
  match d1.1 with
  | Except.error e => { result := Except.error e, driverInserts := [], telemetry := d1.2 }
  | Except.ok v =>
    if truthy v then
      { result := Except.ok v, driverInserts := [], telemetry := d1.2 }
    else
      match processDocument m.fieldOptions document false now1 with
      | Except.error e => { result := Except.error e, driverInserts := [], telemetry := d1.2 }
      | Except.ok pd1 =>
        let inner := modelInsertOne m pd1 now2 elapsed2 dateNow insertedId telemetryWriteFails
        { result := inner.result, driverInserts := inner.driverInserts,
          telemetry := d1.2 ++ inner.telemetry }

/-- Modelled from the spec, for refinement comparison in the
construction-failure claim: the per-type default-compatibility rules as
the specification words them (String: string or null; Number: number or
null; Boolean: boolean only; Date: date value; Array: array value;
Object: object-typed or null; ObjectId: string or null; an undefined or
absent default is not checked; unrecognized type tags are not checked). -/
def defaultCompatible (f : FieldOptions) : Bool :=
  match f.default with
  | none => true
  | some Value.vUndefined => true
  | some d =>
    if f.type == fieldTypeString then isStr d || isNullV d
    else if f.type == fieldTypeNumber then isNum d || isNullV d
    else if f.type == fieldTypeBoolean then isBool d
    else if f.type == fieldTypeDate then isDate d
    else if f.type == fieldTypeArray then isArr d
    else if f.type == fieldTypeObject then typeofObject d || isNullV d
    else if f.type == fieldTypeObjectId then isStr d || isNullV d
    else true

/-- The number of schema fields bearing a given name. -/
def countName (fields : List FieldOptions) (k : String) : Nat :=
  (fields.filter (fun f => f.name == k)).length

/-! ### Helper lemmas about documents -/

theorem getD_setKey_self (d : Doc) (k : String) (v : Value) :
    getD (setKey d k v) k = v := by
  induction d with
  | nil => simp [setKey, getD]
  | cons kv rest ih =>
    obtain ⟨k', v'⟩ := kv
    by_cases h : k' = k
    · subst h; simp [setKey, getD]
    · simp [setKey, getD, beq_iff_eq, h, ih]

theorem getD_setKey_ne (d : Doc) (k k' : String) (v : Value) (h : k ≠ k') :
    getD (setKey d k' v) k = getD d k := by
  induction d with
  | nil => simp [setKey, getD, beq_iff_eq, h, Ne.symm h]
  | cons kv rest ih =>
    obtain ⟨k₀, v₀⟩ := kv
    by_cases h₀ : k₀ = k'
    · subst h₀
      simp [setKey, getD, beq_iff_eq, Ne.symm h]
    · by_cases h₁ : k₀ = k
      · subst h₁; simp [setKey, getD, beq_iff_eq, h₀]
      · simp [setKey, getD, beq_iff_eq, h₀, h₁, ih]

theorem mem_keys_setKey (d : Doc) (k a : String) (v : Value) :
    a ∈ keys (setKey d k v) ↔ a ∈ keys d ∨ a = k := by
  induction d with
  | nil => simp [setKey, keys]
  | cons kv rest ih =>
    obtain ⟨k₀, v₀⟩ := kv
    by_cases h₀ : k₀ = k
    · subst h₀
      have hb : (k₀ == k₀) = true := by simp
      simp only [setKey, hb, if_true, keys, List.map_cons, List.mem_cons]
      tauto
    · have hb : (k₀ == k) = false := by simp [beq_iff_eq, h₀]
      simp only [setKey, hb, Bool.false_eq_true, if_false, keys, List.map_cons,
        List.mem_cons]
      simp only [keys] at ih
      rw [ih]
      tauto

theorem getD_spread_not_mem (d : Doc) (base : Doc) (k : String) (h : k ∉ keys d) :
    getD (spreadInto base d) k = getD base k := by
  induction d generalizing base with
  | nil => simp [spreadInto]
  | cons kv rest ih =>
    obtain ⟨k₀, v₀⟩ := kv
    simp [keys] at h
    push_neg at h
    have hrest : k ∉ keys rest := by simp [keys]; exact h.2
    have : spreadInto base ((k₀, v₀) :: rest) = spreadInto (setKey base k₀ v₀) rest := by
      simp [spreadInto]
    rw [this, ih (setKey base k₀ v₀) hrest, getD_setKey_ne base k k₀ v₀ h.1]

/-! ### Helper lemmas about the field loop -/

theorem processFields_step_isOk (document : Doc) (isUpdate : Bool)
    (fields : List FieldOptions) (acc pd : Doc)
    (h : processFields document isUpdate fields acc = Except.ok pd)
    (f : FieldOptions) (hf : f ∈ fields) :
    (processFieldStep document isUpdate f).isOk = true := by
  induction fields generalizing acc with
  | nil => cases hf
  | cons g rest ih =>
    cases hs : processFieldStep document isUpdate g with
    | error e => rw [processFields, hs] at h; cases h
    | ok o =>
      rcases List.mem_cons.mp hf with hfg | hfr
      · subst hfg; simp [hs, Except.isOk, Except.toBool]
      · cases o with
        | none => rw [processFields, hs] at h; exact ih acc h hfr
        | some v => rw [processFields, hs] at h; exact ih _ h hfr

theorem processFields_getD_not_mem (document : Doc) (isUpdate : Bool)
    (fields : List FieldOptions) (acc pd : Doc) (k : String)
    (hnames : ∀ g ∈ fields, g.name ≠ k)
    (h : processFields document isUpdate fields acc = Except.ok pd) :
    getD pd k = getD acc k := by
  induction fields generalizing acc with
  | nil => rw [processFields] at h; cases h; rfl
  | cons g rest ih =>
    cases hs : processFieldStep document isUpdate g with
    | error e => rw [processFields, hs] at h; cases h
    | ok o =>
      have hg : g.name ≠ k := hnames g (List.mem_cons_self g rest)
      have hrest : ∀ g' ∈ rest, g'.name ≠ k := fun g' hg' => hnames g' (List.mem_cons_of_mem g hg')
      cases o with
      | none => rw [processFields, hs] at h; exact ih acc hrest h
      | some v =>
        rw [processFields, hs] at h
        rw [ih _ hrest h, getD_setKey_ne acc k g.name v (Ne.symm hg)]

theorem countName_cons_self (g : FieldOptions) (rest : List FieldOptions) (k : String)
    (h : g.name = k) : countName (g :: rest) k = countName rest k + 1 := by
  simp [countName, List.filter_cons, h]

theorem countName_cons_ne (g : FieldOptions) (rest : List FieldOptions) (k : String)
    (h : g.name ≠ k) : countName (g :: rest) k = countName rest k := by
  simp [countName, List.filter_cons, h]

theorem countName_pos_of_mem (fields : List FieldOptions) (f : FieldOptions)
    (hf : f ∈ fields) : 0 < countName fields f.name := by
  induction fields with
  | nil => cases hf
  | cons g rest ih =>
    rcases List.mem_cons.mp hf with hfg | hfr
    · subst hfg
      rw [countName_cons_self f rest f.name rfl]
      omega
    · by_cases hg : g.name = f.name
      · rw [countName_cons_self g rest f.name hg]
        omega
      · rw [countName_cons_ne g rest f.name hg]
        exact ih hfr

theorem processFields_getD_unique (document : Doc) (isUpdate : Bool)
    (fields : List FieldOptions) (acc pd : Doc) (f : FieldOptions) (v : Value)
    (h : processFields document isUpdate fields acc = Except.ok pd)
    (hf : f ∈ fields) (hcount : countName fields f.name = 1)
    (hs : processFieldStep document isUpdate f = Except.ok (some v)) :
    getD pd f.name = v := by
  induction fields generalizing acc with
  | nil => cases hf
  | cons g rest ih =>
    rcases List.mem_cons.mp hf with hfg | hfr
    · subst hfg
      have hrest0 : countName rest f.name = 0 := by
        have := countName_cons_self f rest f.name rfl
        omega
      have hnames : ∀ g' ∈ rest, g'.name ≠ f.name := by
        intro g' hg' hc
        have := countName_pos_of_mem rest g' hg'
        rw [hc] at this
        omega
      rw [processFields, hs] at h
      rw [processFields_getD_not_mem document isUpdate rest _ pd f.name hnames h,
          getD_setKey_self]
    · have hgname : g.name ≠ f.name := by
        intro hc
        have h1 : 0 < countName rest f.name := countName_pos_of_mem rest f hfr
        have := countName_cons_self g rest f.name hc
        omega
      have hcount' : countName rest f.name = 1 := by
        have := countName_cons_ne g rest f.name hgname
        omega
      cases hsg : processFieldStep document isUpdate g with
      | error e => rw [processFields, hsg] at h; cases h
      | ok o =>
        cases o with
        | none => rw [processFields, hsg] at h; exact ih acc h hfr hcount'
        | some w => rw [processFields, hsg] at h; exact ih _ h hfr hcount'

theorem processFields_keys_iff (document : Doc) (isUpdate : Bool)
    (fields : List FieldOptions) (acc pd : Doc)
    (h : processFields document isUpdate fields acc = Except.ok pd) (k : String) :
    k ∈ keys pd ↔
      (k ∈ keys acc ∨ ∃ f, f ∈ fields ∧ f.name = k ∧
        ∃ v, processFieldStep document isUpdate f = Except.ok (some v)) := by
  induction fields generalizing acc with
  | nil =>
    rw [processFields] at h
    cases h
    simp
  | cons g rest ih =>
    cases hs : processFieldStep document isUpdate g with
    | error e => rw [processFields, hs] at h; cases h
    | ok o =>
      cases o with
      | none =>
        rw [processFields, hs] at h
        rw [ih acc h]
        constructor
        · rintro (hk | ⟨f, hf, hn, w, hw⟩)
          · exact Or.inl hk
          · exact Or.inr ⟨f, List.mem_cons_of_mem g hf, hn, w, hw⟩
        · rintro (hk | ⟨f, hf, hn, w, hw⟩)
          · exact Or.inl hk
          · rcases List.mem_cons.mp hf with hfg | hfr
            · subst hfg; rw [hs] at hw; cases hw
            · exact Or.inr ⟨f, hfr, hn, w, hw⟩
      | some v =>
        rw [processFields, hs] at h
        rw [ih _ h]
        rw [mem_keys_setKey]
        constructor
        · rintro ((hk | hk) | ⟨f, hf, hn, w, hw⟩)
          · exact Or.inl hk
          · exact Or.inr ⟨g, List.mem_cons_self g rest, hk.symm, v, hs⟩
          · exact Or.inr ⟨f, List.mem_cons_of_mem g hf, hn, w, hw⟩
        · rintro (hk | ⟨f, hf, hn, w, hw⟩)
          · exact Or.inl (Or.inl hk)
          · rcases List.mem_cons.mp hf with hfg | hfr
            · subst hfg; exact Or.inl (Or.inr hn.symm)
            · exact Or.inr ⟨f, hfr, hn, w, hw⟩

theorem step_some_iff (document : Doc) (isUpdate : Bool) (f : FieldOptions)
    (hok : (processFieldStep document isUpdate f).isOk = true) :
    (∃ v, processFieldStep document isUpdate f = Except.ok (some v)) ↔
      (truthy (getD document f.name) || hasDefault f) = true := by
  by_cases ht : truthy (getD document f.name) = true
  · cases hc : coerceVal f.type (getD document f.name) with
    | error e =>
      rw [processFieldStep, if_pos ht, hc] at hok
      simp [Except.map, Except.isOk, Except.toBool] at hok
    | ok w =>
      simp only [processFieldStep, if_pos ht, hc, Except.map, ht, Bool.true_or]
      exact ⟨fun _ => by trivial, fun _ => ⟨w, rfl⟩⟩
  · by_cases hd : hasDefault f = true
    · cases hc : coerceVal f.type (getDefault f) with
      | error e =>
        rw [processFieldStep, if_neg ht, if_pos hd, hc] at hok
        simp [Except.map, Except.isOk, Except.toBool] at hok
      | ok w =>
        simp only [processFieldStep, if_neg ht, if_pos hd, hc, Except.map, hd,
          Bool.or_true]
        exact ⟨fun _ => by trivial, fun _ => ⟨w, rfl⟩⟩
    · have ht' : truthy (getD document f.name) = false := by
        simpa using ht
      have hd' : hasDefault f = false := by
        simpa using hd
      simp only [processFieldStep, if_neg ht, if_neg hd, ht', hd', Bool.or_false]
      by_cases hr : (!isUpdate && f.required) = true
      · rw [if_pos hr]
        simp
      · rw [if_neg hr]
        simp

theorem processFields_error_prefix (document : Doc) (isUpdate : Bool)
    (pre : List FieldOptions) (f : FieldOptions) (post : List FieldOptions)
    (acc : Doc) (e : String)
    (hpre : ∀ g ∈ pre, (processFieldStep document isUpdate g).isOk = true)
    (hf : processFieldStep document isUpdate f = Except.error e) :
    processFields document isUpdate (pre ++ f :: post) acc = Except.error e := by
  induction pre generalizing acc with
  | nil => rw [List.nil_append, processFields, hf]
  | cons g rest ih =>
    have hg : (processFieldStep document isUpdate g).isOk = true :=
      hpre g (List.mem_cons_self g rest)
    have hrest : ∀ g' ∈ rest, (processFieldStep document isUpdate g').isOk = true :=
      fun g' h' => hpre g' (List.mem_cons_of_mem g h')
    cases hs : processFieldStep document isUpdate g with
    | error e' => rw [hs] at hg; simp [Except.isOk, Except.toBool] at hg
    | ok o =>
      cases o with
      | none => rw [List.cons_append, processFields, hs]; exact ih acc hrest
      | some v => rw [List.cons_append, processFields, hs]; exact ih _ hrest

/-! ### Helper lemmas about dispatch and construction -/

theorem dispatch_result_eq {α : Type} (opts : OtherOptionsEff) (modelName : String)
    (query : Doc) (elapsed dateNow : Int) (w : Bool) (op : Except String α) :
    (dispatchAction opts modelName query elapsed dateNow w op).1 = op := by
  unfold dispatchAction
  by_cases hd : opts.debug = true
  · simp only [hd, if_true]
    cases op with
    | error e => rfl
    | ok v => by_cases hc : opts.log ≠ -1 ∧ opts.log < elapsed <;> simp [hc]
  · simp only [Bool.not_eq_true] at hd; simp [hd]

theorem checkDefaults_ok_iff (fields : List FieldOptions) :
    checkDefaults fields = Except.ok () ↔ ∀ f ∈ fields, processDefault f = Except.ok () := by
  induction fields with
  | nil => simp [checkDefaults]
  | cons g rest ih =>
    cases hg : processDefault g with
    | error e =>
      rw [checkDefaults, hg]
      simp only [List.mem_cons]
      constructor
      · intro hc; cases hc
      · intro hall
        have := hall g (Or.inl rfl)
        rw [hg] at this; cases this
    | ok u =>
      cases u
      rw [checkDefaults, hg]
      rw [ih]
      constructor
      · intro hall f hf
        rcases List.mem_cons.mp hf with hfg | hfr
        · subst hfg; exact hg
        · exact hall f hfr
      · intro hall f hf; exact hall f (List.mem_cons_of_mem g hf)

theorem processDefault_ok_iff (f : FieldOptions) :
    processDefault f = Except.ok () ↔ defaultCompatible f = true := by
  rcases hdf : f.default with _ | d
  · simp [processDefault, defaultCompatible, hdf]
  · cases d <;>
      (try simp [processDefault, defaultCompatible, hdf, isStr, isNum, isBool, isDate,
        isArr, isNullV, typeofObject]) <;>
      (try split_ifs) <;>
      simp_all [fieldTypeString, fieldTypeNumber, fieldTypeBoolean, fieldTypeDate,
        fieldTypeArray, fieldTypeObject, fieldTypeObjectId]

/-! ### Packaged lemmas about processDocument -/

theorem processDocument_step_isOk (fields : List FieldOptions) (document : Doc)
    (isUpdate : Bool) (nowMs : Int) (pd : Doc)
    (h : processDocument fields document isUpdate nowMs = Except.ok pd)
    (f : FieldOptions) (hf : f ∈ fields) :
    (processFieldStep document isUpdate f).isOk = true := by
  unfold processDocument at h
  cases hpf : processFields document isUpdate fields [] with
  | error e => rw [hpf] at h; cases h
  | ok acc => exact processFields_step_isOk document isUpdate fields [] acc hpf f hf

theorem processDocument_getD_unique (fields : List FieldOptions) (document : Doc)
    (isUpdate : Bool) (nowMs : Int) (pd : Doc) (f : FieldOptions) (v : Value)
    (h : processDocument fields document isUpdate nowMs = Except.ok pd)
    (hf : f ∈ fields) (hcount : countName fields f.name = 1)
    (hname : f.name ≠ stampKey isUpdate)
    (hs : processFieldStep document isUpdate f = Except.ok (some v)) :
    getD pd f.name = v := by
  unfold processDocument at h
  cases hpf : processFields document isUpdate fields [] with
  | error e => rw [hpf] at h; cases h
  | ok acc =>
    rw [hpf] at h
    have hpd : pd = setKey acc (stampKey isUpdate) (Value.vNum (stampOf nowMs)) := by
      injection h with h'
      exact h'.symm
    subst hpd
    rw [getD_setKey_ne acc f.name (stampKey isUpdate) _ hname]
    exact processFields_getD_unique document isUpdate fields [] acc f v hpf hf hcount hs

theorem processDocument_keys_iff (fields : List FieldOptions) (document : Doc)
    (isUpdate : Bool) (nowMs : Int) (pd : Doc)
    (h : processDocument fields document isUpdate nowMs = Except.ok pd) (k : String) :
    k ∈ keys pd ↔
      (k = stampKey isUpdate ∨ ∃ f, f ∈ fields ∧ f.name = k ∧
        ∃ v, processFieldStep document isUpdate f = Except.ok (some v)) := by
  unfold processDocument at h
  cases hpf : processFields document isUpdate fields [] with
  | error e => rw [hpf] at h; cases h
  | ok acc =>
    rw [hpf] at h
    have hpd : pd = setKey acc (stampKey isUpdate) (Value.vNum (stampOf nowMs)) := by
      injection h with h'
      exact h'.symm
    subst hpd
    rw [mem_keys_setKey]
    rw [processFields_keys_iff document isUpdate fields [] acc hpf k]
    constructor
    · rintro ((hk | hex) | hs)
      · simp [keys] at hk
      · exact Or.inr hex
      · exact Or.inl hs
    · rintro (hs | hex)
      · exact Or.inr hs
      · exact Or.inl (Or.inr hex)

/-! ### Claim theorems -/

/-- C1: for every schema field with a defined default, a falsy supplied
value (0, false or the empty string) is treated as absent and the coerced
default is stored instead; in particular inserting age 0 against a Number
field with default 99 stores age 99. -/
theorem claim1_falsy_input_applies_default (fields : List FieldOptions) (document : Doc)
    (nowMs : Int) (f : FieldOptions) (pd : Doc)
    (hf : f ∈ fields) (hcount : countName fields f.name = 1)
    (hname : f.name ≠ "createdAt")
    (hval : truthy (getD document f.name) = false)
    (hdefault : hasDefault f = true)
    (h : processDocument fields document false nowMs = Except.ok pd) :
    ∃ w, coerceVal f.type (getDefault f) = Except.ok w ∧ getD pd f.name = w := by
  have hstepdef : processFieldStep document false f
      = (coerceVal f.type (getDefault f)).map some := by
    unfold processFieldStep
    rw [if_neg (by simp [hval]), if_pos hdefault]
  have hok := processDocument_step_isOk fields document false nowMs pd h f hf
  rw [hstepdef] at hok
  cases hc : coerceVal f.type (getDefault f) with
  | error e =>
    rw [hc] at hok
    simp [Except.map, Except.isOk, Except.toBool] at hok
  | ok w =>
    refine ⟨w, rfl, ?_⟩
    exact processDocument_getD_unique fields document false nowMs pd f w h hf hcount
      hname (by rw [hstepdef, hc]; rfl)

/-- C1 witness: processing the document with age 0 against the schema
with a Number field age defaulting to 99 produces age 99 (not 0) plus a
createdAt stamp. -/
theorem claim1_witness :
    processDocument [⟨"age", fieldTypeNumber, some (Value.vNum 99), false⟩]
      [("age", Value.vNum 0)] false 0
      = Except.ok [("age", Value.vNum 99), ("createdAt", Value.vNum 0)]
    ∧ getD [("age", Value.vNum 99), ("createdAt", Value.vNum 0)] "age" = Value.vNum 99 := by
  refine ⟨rfl, ?_⟩
  obtain ⟨w, hw, hpd⟩ := claim1_falsy_input_applies_default
    [⟨"age", fieldTypeNumber, some (Value.vNum 99), false⟩] [("age", Value.vNum 0)] 0
    ⟨"age", fieldTypeNumber, some (Value.vNum 99), false⟩
    [("age", Value.vNum 99), ("createdAt", Value.vNum 0)]
    (List.mem_singleton.mpr rfl) (by decide) (by decide) (by decide) (by decide) rfl
  have h99 : coerceVal (FieldOptions.mk "age" fieldTypeNumber (some (Value.vNum 99)) false).type
      (getDefault ⟨"age", fieldTypeNumber, some (Value.vNum 99), false⟩)
      = Except.ok (Value.vNum 99) := rfl
  have hww := hw.symm.trans h99
  injection hww with hww'
  rw [hww'] at hpd
  exact hpd

/-- C2 (amended): when a schema field is required with no default and no
truthy supplied value on the insert path, and every earlier field's own
processing step succeeds, Model.insertOne rejects with the error naming
the missing field and no insert reaches the driver. -/
theorem claim2_required_missing_rejects (m : Model) (document : Doc)
    (nowMs elapsed dateNow : Int) (insertedId : Value) (telemetryWriteFails : Bool)
    (pre post : List FieldOptions) (f : FieldOptions)
    (hfields : m.fieldOptions = pre ++ f :: post)
    (hpre : ∀ g ∈ pre, (processFieldStep document false g).isOk = true)
    (hreq : f.required = true) (hdef : hasDefault f = false)
    (hval : truthy (getD document f.name) = false) :
    (modelInsertOne m document nowMs elapsed dateNow insertedId telemetryWriteFails).result
      = Except.error (requiredMsg f.name)
    ∧ (modelInsertOne m document nowMs elapsed dateNow insertedId telemetryWriteFails).driverInserts
      = [] := by
  have hstep : processFieldStep document false f = Except.error (requiredMsg f.name) := by
    unfold processFieldStep
    rw [if_neg (by simp [hval]), if_neg (by simp [hdef]), if_pos (by simp [hreq])]
  have hpf : processFields document false (pre ++ f :: post) []
      = Except.error (requiredMsg f.name) :=
    processFields_error_prefix document false pre f post [] (requiredMsg f.name) hpre hstep
  have hproc : processDocument m.fieldOptions document false nowMs
      = Except.error (requiredMsg f.name) := by
    unfold processDocument
    rw [hfields, hpf]
  unfold modelInsertOne
  simp only [hproc]
  constructor
  · rw [dispatch_result_eq]
    rfl
  · trivial

/-- C2 witness: a schema with a single required String field and an empty
input document makes insertOne reject with the required-field error and
hand nothing to the driver. -/
theorem claim2_witness :
    (modelInsertOne ⟨"users", [⟨"req", fieldTypeString, none, true⟩], ⟨false, -1⟩⟩
      [] 0 0 0 Value.vNull false).result = Except.error (requiredMsg "req")
    ∧ (modelInsertOne ⟨"users", [⟨"req", fieldTypeString, none, true⟩], ⟨false, -1⟩⟩
      [] 0 0 0 Value.vNull false).driverInserts = [] :=
  claim2_required_missing_rejects
    ⟨"users", [⟨"req", fieldTypeString, none, true⟩], ⟨false, -1⟩⟩ [] 0 0 0 Value.vNull false
    [] [] ⟨"req", fieldTypeString, none, true⟩ rfl
    (by intro g hg; cases hg) rfl (by decide) (by decide)

/-- C2 counterexample to the claim as stated: with an Array-typed field
preceding the required field and a truthy negative numeric value supplied
for it, processing fails with the array-constructor RangeError, an error
that does not name the missing required field req (no occurrence of the
substring req), even though req is required, defaultless and absent. -/
theorem claim2_counterexample :
    (modelInsertOne
        ⟨"users", [⟨"arr", fieldTypeArray, none, false⟩, ⟨"req", fieldTypeString, none, true⟩],
          ⟨false, -1⟩⟩
        [("arr", Value.vNum (-3))] 0 0 0 Value.vNull false).result
      = Except.error "Invalid array length"
    ∧ "Invalid array length" ≠ requiredMsg "req" := by
  exact ⟨rfl, by decide⟩

/-- C3 (code bug): findOneOrCreate on an empty collection with the
spec's example filter and document resolves to the boolean false — the
double-processed document is inserted but insertOne resolves with the
truthiness of the missing acknowledged member — never to the created
record (a boolean is not an object). -/
theorem claim3_findOneOrCreate_returns_bool :
    (modelFindOneOrCreate
        ⟨"users", [⟨"email", fieldTypeString, none, true⟩, ⟨"name", fieldTypeString, none, true⟩],
          ⟨false, -1⟩⟩
        none [("email", Value.vStr "x@y.com")]
        [("email", Value.vStr "x@y.com"), ("name", Value.vStr "A")]
        0 0 0 0 0 (Value.vStr "id1") false).result
      = Except.ok (Value.vBool false)
    ∧ ∀ d : Doc, (Except.ok (Value.vBool false) : Except String Value)
        ≠ Except.ok (Value.vObj d) := by
  refine ⟨rfl, ?_⟩
  intro d hc
  injection hc with h'
  injection h'

/-- C4 (amended): a successfully processed document's keys are exactly
the one lifecycle stamp plus those declared fields whose supplied value
is truthy or which carry a defined default; every undeclared input key is
dropped, the matching lifecycle stamp is present and the opposite stamp
absent.  A declared field with neither a truthy value nor a default is
omitted, so the output need not contain every declared field. -/
theorem claim4_processed_keys (fields : List FieldOptions) (document : Doc)
    (isUpdate : Bool) (nowMs : Int) (pd : Doc)
    (hres : ∀ f ∈ fields, f.name ≠ "createdAt" ∧ f.name ≠ "updatedAt")
    (h : processDocument fields document isUpdate nowMs = Except.ok pd) :
    (∀ k, k ∈ keys pd ↔
      (k = stampKey isUpdate ∨ ∃ f, f ∈ fields ∧ f.name = k ∧
        (truthy (getD document f.name) || hasDefault f) = true))
    ∧ stampKey isUpdate ∈ keys pd
    ∧ stampKey (!isUpdate) ∉ keys pd := by
  have hiff := processDocument_keys_iff fields document isUpdate nowMs pd h
  have hstepok := processDocument_step_isOk fields document isUpdate nowMs pd h
  have hmain : ∀ k, k ∈ keys pd ↔
      (k = stampKey isUpdate ∨ ∃ f, f ∈ fields ∧ f.name = k ∧
        (truthy (getD document f.name) || hasDefault f) = true) := by
    intro k
    rw [hiff k]
    constructor
    · rintro (hk | ⟨f, hf, hn, v, hv⟩)
      · exact Or.inl hk
      · exact Or.inr ⟨f, hf, hn,
          (step_some_iff document isUpdate f (hstepok f hf)).mp ⟨v, hv⟩⟩
    · rintro (hk | ⟨f, hf, hn, htv⟩)
      · exact Or.inl hk
      · obtain ⟨v, hv⟩ := (step_some_iff document isUpdate f (hstepok f hf)).mpr htv
        exact Or.inr ⟨f, hf, hn, v, hv⟩
  refine ⟨hmain, (hmain _).mpr (Or.inl rfl), ?_⟩
  intro hmem
  rcases (hmain _).mp hmem with hk | ⟨f, hf, hn, _⟩
  · cases isUpdate <;> simp [stampKey] at hk
  · cases isUpdate with
    | false => exact (hres f hf).2 (by simpa [stampKey] using hn)
    | true => exact (hres f hf).1 (by simpa [stampKey] using hn)

/-- C4 witness: with one declared String field holding a truthy value,
the insert-path output contains createdAt and not updatedAt. -/
theorem claim4_witness :
    "createdAt" ∈ keys [("a", Value.vStr "x"), ("createdAt", Value.vNum 0)]
    ∧ "updatedAt" ∉ keys [("a", Value.vStr "x"), ("createdAt", Value.vNum 0)] := by
  have h := claim4_processed_keys [⟨"a", fieldTypeString, none, false⟩]
    [("a", Value.vStr "x")] false 0 [("a", Value.vStr "x"), ("createdAt", Value.vNum 0)]
    (by
      intro f hf
      rw [List.mem_singleton] at hf
      subst hf
      exact ⟨by decide, by decide⟩)
    rfl
  exact ⟨h.2.1, h.2.2⟩

/-- C4 counterexample to the claim as stated: a declared optional field
with no default and no input value is omitted from the processed output,
so the output does not contain exactly the declared schema fields. -/
theorem claim4_counterexample :
    processDocument [⟨"a", fieldTypeString, none, false⟩] [] true 0
      = Except.ok [("updatedAt", Value.vNum 0)]
    ∧ "a" ∉ keys [("updatedAt", Value.vNum 0)] := by
  exact ⟨rfl, by decide⟩

/-- C5 (amended): for a successful operation, dispatchAction writes
exactly one telemetry record (with the model name, query, elapsed time
and date) precisely when debug is true, the effective log threshold —
after the constructor maps a falsy configured log, in particular 0, to -1
— is not -1, and the elapsed time exceeds it; otherwise it writes
nothing. -/
theorem claim5_telemetry_condition (o : Option OtherOptionsIn) (modelName : String)
    (query : Doc) (elapsed dateNow : Int) (v : Value) :
    (dispatchAction (normalizeOptions o) modelName query elapsed dateNow false
        (Except.ok v)).2
      = if (normalizeOptions o).debug = true ∧ (normalizeOptions o).log ≠ -1 ∧
            (normalizeOptions o).log < elapsed
        then [{ model := modelName, query := query, time := elapsed, date := dateNow }]
        else [] := by
  unfold dispatchAction
  by_cases hd : (normalizeOptions o).debug = true
  · simp only [hd, if_true, true_and]
    by_cases hc : (normalizeOptions o).log ≠ -1 ∧ (normalizeOptions o).log < elapsed
    · simp [hc]
    · simp [hc]
  · have hd' : (normalizeOptions o).debug = false := by simpa using hd
    simp [hd']

/-- C5 counterexample to the claim as stated: a façade constructed with
debug true and log 0 — which satisfies the claim's log nonnegative and
elapsed greater than log for a 100 ms operation — writes no telemetry at
all, because the constructor's truthiness normalization turns log 0 into
-1. -/
theorem claim5_counterexample :
    normalizeOptions (some ⟨some true, 0⟩) = ⟨true, -1⟩
    ∧ (dispatchAction (α := Value) (normalizeOptions (some ⟨some true, 0⟩)) "users" []
        100 0 false (Except.ok Value.vNull)).2.length = 0
    ∧ ((0 : Int) ≥ 0 ∧ (100 : Int) > 0) := by
  exact ⟨rfl, rfl, by decide, by decide⟩

/-- C6: dispatchAction resolves to exactly the wrapped operation's value
and rejects with exactly its error, under both debug settings and
independently of whether the fire-and-forget telemetry write succeeds or
fails. -/
theorem claim6_dispatch_transparent {α : Type} (opts : OtherOptionsEff)
    (modelName : String) (query : Doc) (elapsed dateNow : Int)
    (telemetryWriteFails : Bool) (op : Except String α) :
    (dispatchAction opts modelName query elapsed dateNow telemetryWriteFails op).1 = op :=
  dispatch_result_eq opts modelName query elapsed dateNow telemetryWriteFails op

/-- C7 (amended): model construction succeeds exactly when no declared
field is named createdAt or updatedAt and every defined default is
type-compatible per the per-type rules; duplicated field names are not
rejected. -/
theorem claim7_construction_failure_iff (collectionName : String)
    (fields : List FieldOptions) (otherOptions : Option OtherOptionsIn) :
    (constructModel collectionName fields otherOptions).isOk = true ↔
      ∀ f ∈ fields, (f.name ≠ "createdAt" ∧ f.name ≠ "updatedAt")
        ∧ defaultCompatible f = true := by
  have hchar : (constructModel collectionName fields otherOptions).isOk = true ↔
      (checkDefaults fields = Except.ok () ∧
       (fields.filter (fun f => f.name == "createdAt" || f.name == "updatedAt")) = []) := by
    unfold constructModel
    cases hcd : checkDefaults fields with
    | error e => simp [Except.isOk, Except.toBool]
    | ok u =>
      cases u
      by_cases hfil :
          (fields.filter (fun f => f.name == "createdAt" || f.name == "updatedAt")) = []
      · simp [hfil, Except.isOk, Except.toBool]
      · have : (fields.filter
            (fun f => f.name == "createdAt" || f.name == "updatedAt")).length ≠ 0 := by
          intro hlen
          exact hfil (List.length_eq_zero.mp hlen)
        simp [hfil, this, Except.isOk, Except.toBool]
  rw [hchar, checkDefaults_ok_iff, List.filter_eq_nil_iff]
  constructor
  · rintro ⟨hdef, hresv⟩ f hf
    have hr := hresv f hf
    simp only [Bool.or_eq_true, beq_iff_eq] at hr
    push_neg at hr
    exact ⟨hr, (processDefault_ok_iff f).mp (hdef f hf)⟩
  · intro hall
    refine ⟨fun f hf => (processDefault_ok_iff f).mpr (hall f hf).2, fun f hf => ?_⟩
    have hr := (hall f hf).1
    simp [beq_iff_eq, hr.1, hr.2]

/-- C7 witness: a schema with one String field with a string default
constructs successfully. -/
theorem claim7_witness :
    (constructModel "m" [⟨"a", fieldTypeString, some (Value.vStr "x"), false⟩] none).isOk
      = true :=
  (claim7_construction_failure_iff "m"
      [⟨"a", fieldTypeString, some (Value.vStr "x"), false⟩] none).mpr
    (by
      intro f hf
      rw [List.mem_singleton] at hf
      subst hf
      exact ⟨⟨by decide, by decide⟩, by decide⟩)

/-- C7 counterexample to the claim as stated: a schema with the same
field name declared twice constructs successfully — no duplicate-name
check exists. -/
theorem claim7_counterexample :
    (constructModel "m"
        [⟨"a", fieldTypeString, none, false⟩, ⟨"a", fieldTypeString, none, false⟩]
        none).isOk = true
    ∧ countName [⟨"a", fieldTypeString, none, false⟩, ⟨"a", fieldTypeString, none, false⟩]
        "a" = 2 := by
  exact ⟨rfl, rfl⟩

/-- C8 (amended): an Array-typed field given a truthy non-array value is
coerced with the JS Array constructor: a non-number value becomes the
single-element array holding it, while a numeric value n yields an array
of n empty slots when n is a nonnegative integer and rejects the whole
document with the invalid-array-length RangeError when n is negative. -/
theorem claim8_array_coercion (fields : List FieldOptions) (document : Doc) (nowMs : Int)
    (f : FieldOptions)
    (hf : f ∈ fields) (hcount : countName fields f.name = 1)
    (hname : f.name ≠ "createdAt") (hty : f.type = fieldTypeArray)
    (htr : truthy (getD document f.name) = true)
    (harr : isArr (getD document f.name) = false) :
    (∀ pd, processDocument fields document false nowMs = Except.ok pd →
      getD pd f.name = (match getD document f.name with
        | Value.vNum n => Value.vArr (List.replicate n.toNat Value.vUndefined)
        | v => Value.vArr [v]))
    ∧ (∀ n : Int, getD document f.name = Value.vNum n → n < 0 →
        ∀ pd, processDocument fields document false nowMs ≠ Except.ok pd) := by
  have hstepco : processFieldStep document false f
      = (jsArrayCtor (getD document f.name)).map some := by
    unfold processFieldStep
    rw [if_pos htr]
    have : coerceVal f.type (getD document f.name) = jsArrayCtor (getD document f.name) := by
      rw [hty]
      unfold coerceVal
      rw [if_neg (by decide), if_neg (by decide), if_neg (by decide), if_neg (by decide),
          if_pos (by simp [harr])]
    rw [this]
  constructor
  · intro pd h
    have hok := processDocument_step_isOk fields document false nowMs pd h f hf
    cases hv : getD document f.name with
    | vNull => rw [hv] at htr; simp [truthy] at htr
    | vUndefined => rw [hv] at htr; simp [truthy] at htr
    | vArr xs => rw [hv] at harr; simp [isArr] at harr
    | vNum n =>
      rw [hstepco, hv] at hok
      by_cases hneg : n < 0
      · exfalso
        simp only [jsArrayCtor] at hok
        rw [if_pos hneg] at hok
        simp [Except.map, Except.isOk, Except.toBool] at hok
      · rw [hv] at hstepco
        have hsome : processFieldStep document false f
            = Except.ok (some (Value.vArr (List.replicate n.toNat Value.vUndefined))) := by
          rw [hstepco]
          simp only [jsArrayCtor]
          rw [if_neg hneg]
          rfl
        exact processDocument_getD_unique fields document false nowMs pd f _ h hf hcount
          hname hsome
    | vBool b =>
      rw [hv] at hstepco
      exact processDocument_getD_unique fields document false nowMs pd f _ h hf hcount
        hname (by rw [hstepco]; rfl)
    | vStr s =>
      rw [hv] at hstepco
      exact processDocument_getD_unique fields document false nowMs pd f _ h hf hcount
        hname (by rw [hstepco]; rfl)
    | vDate t =>
      rw [hv] at hstepco
      exact processDocument_getD_unique fields document false nowMs pd f _ h hf hcount
        hname (by rw [hstepco]; rfl)
    | vObj o =>
      rw [hv] at hstepco
      exact processDocument_getD_unique fields document false nowMs pd f _ h hf hcount
        hname (by rw [hstepco]; rfl)
  · intro n hn hneg pd h
    have hok := processDocument_step_isOk fields document false nowMs pd h f hf
    rw [hstepco, hn] at hok
    simp only [jsArrayCtor] at hok
    rw [if_pos hneg] at hok
    simp [Except.map, Except.isOk, Except.toBool] at hok

/-- C8 witness: an Array field supplied the truthy string x stores the
single-element array containing x. -/
theorem claim8_witness :
    getD [("arr", Value.vArr [Value.vStr "x"]), ("createdAt", Value.vNum 0)] "arr"
      = Value.vArr [Value.vStr "x"] := by
  have h := claim8_array_coercion [⟨"arr", fieldTypeArray, none, false⟩]
    [("arr", Value.vStr "x")] 0 ⟨"arr", fieldTypeArray, none, false⟩
    (List.mem_singleton.mpr rfl) (by decide) (by decide) rfl (by decide) (by decide)
  exact h.1 [("arr", Value.vArr [Value.vStr "x"]), ("createdAt", Value.vNum 0)] rfl

/-- C8 counterexample to the claim as stated: an Array field supplied the
truthy number 3 is stored as a three-slot array of empty slots, not as
the single-element array containing 3. -/
theorem claim8_counterexample :
    processDocument [⟨"a", fieldTypeArray, none, false⟩] [("a", Value.vNum 3)] false 0
      = Except.ok [("a", Value.vArr [Value.vUndefined, Value.vUndefined, Value.vUndefined]),
                   ("createdAt", Value.vNum 0)]
    ∧ Value.vArr [Value.vUndefined, Value.vUndefined, Value.vUndefined]
        ≠ Value.vArr [Value.vNum 3] := by
  refine ⟨rfl, ?_⟩
  intro hc
  injection hc with h'
  injection h' with h1 h2
  injection h2

/-- C9 (amended): the FieldTypes registry is the closed set of seven tags
String, Number, Boolean, Date, Array, Object, ObjectId — there is no
Mixed tag — and a field declared with a type value outside the registry
is accepted with no default-type validation and no value coercion. -/
theorem claim9_fieldtypes_registry :
    FieldTypes.map Prod.fst
      = ["String", "Number", "Boolean", "Date", "Array", "Object", "ObjectId"]
    ∧ "Mixed" ∉ FieldTypes.map Prod.fst
    ∧ (∀ ty : String, ∀ v : Value, ty ∉ FieldTypes.map Prod.snd →
        coerceVal ty v = Except.ok v)
    ∧ (∀ f : FieldOptions, f.type ∉ FieldTypes.map Prod.snd →
        processDefault f = Except.ok ()) := by
  refine ⟨rfl, by decide, ?_, ?_⟩
  · intro ty v h
    simp only [FieldTypes, List.map_cons, List.map_nil, List.mem_cons,
      List.not_mem_nil, or_false] at h
    push_neg at h
    obtain ⟨h1, h2, h3, h4, h5, h6, h7⟩ := h
    simp [coerceVal, beq_iff_eq, h1, h2, h3, h4, h5, h6, h7]
  · intro f h
    simp only [FieldTypes, List.map_cons, List.map_nil, List.mem_cons,
      List.not_mem_nil, or_false] at h
    push_neg at h
    obtain ⟨h1, h2, h3, h4, h5, h6, h7⟩ := h
    rcases hdf : f.default with _ | d
    · simp [processDefault, hdf]
    · cases d <;> simp [processDefault, hdf, beq_iff_eq, h1, h2, h3, h4, h5, h6, h7]

/-- C9 witness: the unregistered type tag mixed is passed through
uncoerced. -/
theorem claim9_witness :
    coerceVal "mixed" (Value.vBool true) = Except.ok (Value.vBool true) :=
  claim9_fieldtypes_registry.2.2.1 "mixed" (Value.vBool true) (by decide)

/-- C9 counterexample to the claim as stated: the registry has seven
tags, not eight, and Mixed is not among them. -/
theorem claim9_counterexample :
    (FieldTypes.map Prod.fst).length = 7 ∧ "Mixed" ∉ FieldTypes.map Prod.fst := by
  exact ⟨rfl, by decide⟩

/-- C10: whenever document processing (and hence the driver insert)
succeeds, Model.insertOne resolves to the boolean false — the truthiness
of the absent acknowledged member of QueryBuilder.insertOne's return
object — for every schema that does not itself declare a field named
acknowledged. -/
theorem claim10_insertOne_resolves_false (m : Model) (document : Doc)
    (nowMs elapsed dateNow : Int) (insertedId : Value) (telemetryWriteFails : Bool)
    (hack : ∀ f ∈ m.fieldOptions, f.name ≠ "acknowledged")
    (hok : (modelInsertOne m document nowMs elapsed dateNow insertedId
        telemetryWriteFails).result.isOk = true) :
    (modelInsertOne m document nowMs elapsed dateNow insertedId telemetryWriteFails).result
      = Except.ok (Value.vBool false) := by
  unfold modelInsertOne at hok ⊢
  cases hpd : processDocument m.fieldOptions document false nowMs with
  | error e =>
    simp only [hpd] at hok
    rw [dispatch_result_eq] at hok
    simp [Except.map, Except.isOk, Except.toBool] at hok
  | ok pd =>
    simp only [hpd]
    rw [dispatch_result_eq]
    have hnk : "acknowledged" ∉ keys pd := by
      intro hmem
      rcases (processDocument_keys_iff m.fieldOptions document false nowMs pd hpd
          "acknowledged").mp hmem with hk | ⟨f, hf, hn, _⟩
      · simp [stampKey] at hk
      · exact hack f hf hn
    have hget : getD (qbInsertOne insertedId pd) "acknowledged" = Value.vUndefined := by
      unfold qbInsertOne
      rw [getD_spread_not_mem pd [("_id", insertedId)] "acknowledged" hnk]
      rfl
    simp only [Except.map, hget]
    rfl

/-- C10 witness: inserting a one-field document through a one-field
schema resolves to the boolean false. -/
theorem claim10_witness :
    (modelInsertOne ⟨"users", [⟨"name", fieldTypeString, none, false⟩], ⟨false, -1⟩⟩
      [("name", Value.vStr "bob")] 0 0 0 Value.vNull false).result
      = Except.ok (Value.vBool false) :=
  claim10_insertOne_resolves_false
    ⟨"users", [⟨"name", fieldTypeString, none, false⟩], ⟨false, -1⟩⟩
    [("name", Value.vStr "bob")] 0 0 0 Value.vNull false
    (by
      intro f hf
      rw [List.mem_singleton] at hf
      subst hf
      decide)
    rfl

end MongoOrm

